import Mathlib

/-!
Verification development for `src/packages/core/src/create-form-action.ts`
of the felte repository.

The file shallow-embeds the form action module: the data model is a
JSON-like value tree (`Val`), stores are fields of a `FormState` record,
and the event handlers / submit handler of the source are translated into
pure Lean functions that thread the state explicitly and record their
observable effects (submit-action invocations, extender notifications,
`errors.set` calls, `preventDefault`) in a `SubmitLog`.

Helpers imported from `@felte/common` (`_get`, `_set`, `_unset`, `_merge`,
`_defaultsDeep`, `deepSet`, `deepSome`, `executeValidation`, path
resolution) are not part of the analyzed source file; they are modelled
from the specification, as noted on each definition.
-/

/-- A JSON-like value: the nested data/touched/errors/warnings trees.
`vundef` stands for both JavaScript `undefined` and `null`. -/
inductive Val where
  | vundef : Val
  | vbool : Bool → Val
  | vstr : String → Val
  | vnum : Int → Val
  | varr : List Val → Val
  | vobj : List (String × Val) → Val

/-- First binding of a key in an association list of object entries. -/
def lookupKey : List (String × Val) → String → Option Val
  | [], _ => none
  | (k, v) :: rest, key => if k = key then some v else lookupKey rest key

/-- Replace the binding of a key, or append it at the end (JavaScript
property-assignment order). -/
def setKey : List (String × Val) → String → Val → List (String × Val)
  | [], key, v => [(key, v)]
  | (k, w) :: rest, key, v =>
      if k = key then (k, v) :: rest else (k, w) :: setKey rest key v

/-- Remove the binding of a key. -/
def removeKey : List (String × Val) → String → List (String × Val)
  | [], _ => []
  | (k, w) :: rest, key =>
      if k = key then removeKey rest key else (k, w) :: removeKey rest key

/-- Modelled from the spec: `_get` of `@felte/common` (§3 DataTree, "reads
via snapshot"): read the value at a path, `undefined` when absent.  Paths
are sequences of string segments (§3 Path); array indexing is not needed
by the analyzed module. -/
def _get : Val → List String → Val
  | v, [] => v
  | Val.vobj kvs, k :: ks =>
      (match lookupKey kvs k with
       | some v => _get v ks
       | none => Val.vundef)
  | _, _ :: _ => Val.vundef

/-- Modelled from the spec: `_set` of `@felte/common` ("writes via
path-scoped update"): write a value at a path, materialising missing or
non-object intermediate nodes as fresh objects. -/
def _set : Val → List String → Val → Val
  | _, [], v => v
  | Val.vobj kvs, k :: ks, v =>
      Val.vobj (setKey kvs k
        (_set (match lookupKey kvs k with
               | some w => w
               | none => Val.vundef) ks v))
  | _, k :: ks, v => Val.vobj [(k, _set Val.vundef ks v)]

/-- Modelled from the spec: `_unset` of `@felte/common` ("unset its path
from Data, Touched, Errors, and Warnings"): delete the binding at a path;
a path through a missing or non-object node leaves the tree unchanged. -/
def _unset : Val → List String → Val
  | v, [] => v
  | Val.vobj kvs, [k] => Val.vobj (removeKey kvs k)
  | Val.vobj kvs, k :: ks =>
      (match lookupKey kvs k with
       | some w => Val.vobj (setKey kvs k (_unset w ks))
       | none => Val.vobj kvs)
  | v, _ :: _ => v

/-- JavaScript truthiness (`!!error`) of a modelled value. -/
def truthy : Val → Bool
  | Val.vundef => false
  | Val.vbool b => b
  | Val.vstr s => s ≠ ""
  | Val.vnum n => n ≠ 0
  | Val.varr _ => true
  | Val.vobj _ => true

/-- Is the value a plain object? -/
def isObjV : Val → Bool
  | Val.vobj _ => true
  | _ => false

/-- Is the value an array? -/
def isArrV : Val → Bool
  | Val.varr _ => true
  | _ => false

/-- Are all values in the list plain objects? -/
def allObj : List Val → Bool
  | [] => true
  | Val.vobj _ :: rest => allObj rest
  | _ :: _ => false

mutual

/-- Modelled from the spec: `deepSet` of `@felte/common` ("Marks every
path in Touched as true (full-tree touch)", "a false-initialized
version"): rebuild the tree with every leaf replaced by `b`, recursing
through objects and through arrays whose members are all objects, and
replacing any other value by `b`. -/
def deepSet : Val → Val → Val
  | Val.vobj kvs, b => Val.vobj (deepSetKVs kvs b)
  | Val.varr vs, b => if allObj vs then Val.varr (deepSetArr vs b) else b
  | _, b => b

/-- Map `deepSet` over object entries. -/
def deepSetKVs : List (String × Val) → Val → List (String × Val)
  | [], _ => []
  | (k, v) :: rest, b => (k, deepSet v b) :: deepSetKVs rest b

/-- Map `deepSet` over array members. -/
def deepSetArr : List Val → Val → List Val
  | [], _ => []
  | v :: rest, b => deepSet v b :: deepSetArr rest b

end

mutual

/-- Modelled from the spec: `deepSome` of `@felte/common` ("validation
produced any non-empty error at any path"): does some leaf of the tree
satisfy the predicate?  Objects and arrays are traversed; the predicate is
applied to every other value. -/
def deepSome (p : Val → Bool) : Val → Bool
  | Val.vobj kvs => deepSomeKVs p kvs
  | Val.varr vs => deepSomeArr p vs
  | v => p v

/-- Run `deepSome` over object entries. -/
def deepSomeKVs (p : Val → Bool) : List (String × Val) → Bool
  | [] => false
  | (_, v) :: rest => deepSome p v || deepSomeKVs p rest

/-- Run `deepSome` over array members. -/
def deepSomeArr (p : Val → Bool) : List Val → Bool
  | [] => false
  | v :: rest => deepSome p v || deepSomeArr p rest

end

mutual

/-- Modelled from the spec: `_merge` of `@felte/common` (used by the
submit handler to store warnings over a null-initialized shape): deep
merge where the second tree wins, plain objects merge recursively, and an
`undefined` on the right leaves the left value in place. -/
def _merge : Val → Val → Val
  | Val.vobj akvs, Val.vobj bkvs => Val.vobj (mergeKVs akvs bkvs)
  | a, Val.vundef => a
  | _, b => b

/-- Fold `_merge` over the entries of the right object. -/
def mergeKVs : List (String × Val) → List (String × Val) → List (String × Val)
  | akvs, [] => akvs
  | akvs, (k, v) :: rest =>
      mergeKVs (match lookupKey akvs k with
                | some w => setKey akvs k (_merge w v)
                | none => akvs ++ [(k, v)]) rest

end

mutual

/-- Modelled from the spec: `_defaultsDeep` of `@felte/common`
("deep-merge (store wins on conflicts, defaults only fill gaps)"): the
first tree wins; `undefined` slots are filled from the second tree; plain
objects merge recursively, keys present only in the defaults are
appended. -/
def _defaultsDeep : Val → Val → Val
  | Val.vundef, b => b
  | Val.vobj akvs, Val.vobj bkvs => Val.vobj (ddKVs akvs bkvs)
  | a, _ => a

/-- Apply `_defaultsDeep` over object entries: entries of the first object are
kept (recursively defaulted when the second object also binds the key),
then the unconsumed entries of the second object are appended. -/
def ddKVs : List (String × Val) → List (String × Val) → List (String × Val)
  | [], bkvs => bkvs
  | (k, v) :: rest, bkvs =>
      (k, match lookupKey bkvs k with
          | some w => _defaultsDeep v w
          | none => v) :: ddKVs rest (removeKey bkvs k)

end

/-- JavaScript object spread `\x7b ...a, ...b \x7d`: entries of `b`
override same-keyed entries of `a`, new keys are appended in order. -/
def spreadMerge (a b : List (String × Val)) : List (String × Val) :=
  b.foldl (fun acc kv => setKey acc kv.1 kv.2) a

/-- Is the first path a (non-strict) prefix of the second? -/
def isPre : List String → List String → Bool
  | [], _ => true
  | _ :: _, [] => false
  | a :: as, b :: bs => a = b && isPre as bs

/-- A DOM element as the analyzed module observes it: the `name`
attribute, whether `isFormControl` / `isInputElement` hold for it, its
checked state and string value, the parsed `data-felte-index` attribute
(`getIndex`, `none` when absent or not a number), and its resolved path
(`getPath`; path resolution lives in `@felte/common` and is modelled from
the spec's PathResolver contract: a pure function of the element's own
attributes). -/
structure Element where
  name : String
  isFormControlF : Bool
  isInputElementF : Bool
  checked : Bool
  value : String
  felteIndex : Option Int
  path : List String
deriving DecidableEq, Repr

/-- The bound `HTMLFormElement`, reduced to its `elements` collection. -/
structure FormNode where
  elements : List Element
deriving DecidableEq, Repr

/-- The six stores of `Stores<Data>` (`data`, `errors`, `warnings`,
`touched`, `isSubmitting`, `isDirty`), threaded as one record. -/
structure FormState where
  dataTree : Val
  errorsTree : Val
  warningsTree : Val
  touchedTree : Val
  isSubmitting : Bool
  isDirty : Bool

/-- The context object passed to the submit action
(`create-form-action.ts` lines 160-165): the bound form node, its
elements filtered with `isFormControl` (`undefined` when no form node is
bound), and the merged configuration.  Function-valued configuration
entries are not observable by equality and are carried separately in
`SubmitEnv`; the context carries the data entries. -/
structure SubmitCtx where
  form : Option FormNode
  controls : Option (List Element)
  config : List (String × Val)

/-- A submit action: `onSubmit(currentData, context)`; a thrown or
rejected value is an `Except.error`. -/
abbrev SubmitAction := Val → SubmitCtx → Except Val Unit

/-- A validation or warning function: takes the data snapshot and
returns an error tree or nothing, or throws (§6 validation contract). -/
abbrev ValidateFn := Val → Except Val (Option Val)

/-- Observable effects of one submit-handler invocation:
whether `event.preventDefault()` ran, each invocation of the submit
action with its arguments, each extender `onSubmitError` notification
with its `(data, errors)` payload, and each value passed to
`errors.set`. -/
structure SubmitLog where
  preventedDefault : Bool
  submitCalls : List (Val × SubmitCtx)
  submitErrorCalls : List (Val × Val)
  errorsSets : List Val

/-- The empty effect log. -/
def emptyLog : SubmitLog :=
  { preventedDefault := false, submitCalls := [], submitErrorCalls := [],
    errorsSets := [] }

/-- The environment of one `handleSubmit` invocation: the bound form node
(if any), the configured and per-handler (`altConfig`) submit, validate,
warn and error-recovery functions, the data entries of `config` and
`altConfig`, the default submit handler that `createDefaultSubmitHandler`
builds when a form node exists (its network behaviour is external), the
current extenders (`true` when the handler exposes an `onSubmitError`
hook), and `asyncGapUpdate`: the edits applied to the live data store by
the environment during the awaited validation gap (§5 concurrency
model). -/
structure SubmitEnv where
  formNode : Option FormNode
  cfgOnSubmit : Option SubmitAction
  altOnSubmit : Option SubmitAction
  cfgValidate : Option ValidateFn
  altValidate : Option ValidateFn
  cfgWarn : Option ValidateFn
  altWarn : Option ValidateFn
  cfgOnError : Option (Val → Val)
  altOnError : Option (Val → Val)
  cfgProps : List (String × Val)
  altProps : List (String × Val)
  defaultSubmit : SubmitAction
  extenders : List Bool
  asyncGapUpdate : Val → Val

/-- Result of one submit-handler invocation: final store state, effect
log, and the settled outcome (`Except.error` when the handler rejects). -/
structure SubmitResult where
  state : FormState
  log : SubmitLog
  outcome : Except Val Unit

/-- Modelled from the spec: `executeValidation` of `@felte/common`
("Runs the validation function set (if any) against the snapshot"):
nothing configured means no errors; otherwise the function runs on the
snapshot, propagating a thrown failure. -/
def executeValidation (d : Val) : Option ValidateFn → Except Val (Option Val)
  | none => Except.ok none
  | some f => f d

/-- Model of `_getCurrentExtenders().forEach(ext => ext.onSubmitError?.(...))`:
the `(data, errors)` notifications produced, one per extender exposing
the hook, in order. -/
def extenderCalls (exts : List Bool) (d e : Val) : List (Val × Val) :=
  exts.filterMap (fun h => if h then some (d, e) else none)

/-- Resolution of `altConfig?.onSubmit ?? config.onSubmit ??
createDefaultSubmitHandler(formNode)` (lines 127-130):
`createDefaultSubmitHandler` returns a handler exactly when a form node
is bound. -/
def resolveOnSubmit (env : SubmitEnv) : Option SubmitAction :=
  env.altOnSubmit <|> env.cfgOnSubmit <|>
    env.formNode.map (fun _ => env.defaultSubmit)

/-- Resolution of `altConfig?.validate ?? config.validate` (line 131). -/
def resolveValidate (env : SubmitEnv) : Option ValidateFn :=
  env.altValidate <|> env.cfgValidate

/-- Resolution of `altConfig?.warn ?? config.warn` (line 132). -/
def resolveWarn (env : SubmitEnv) : Option ValidateFn :=
  env.altWarn <|> env.cfgWarn

/-- Resolution of `altConfig?.onError ?? config.onError` (line 133).  The recovery
function returns the replacement error value (`vundef` models a bare
return). -/
def resolveOnError (env : SubmitEnv) : Option (Val → Val) :=
  env.altOnError <|> env.cfgOnError

/-- The context object built at lines 160-165: the form node, its
elements filtered by `isFormControl` (`undefined` without a form node),
and the spread-merged configuration. -/
def mkSubmitCtx (env : SubmitEnv) : SubmitCtx :=
  { form := env.formNode,
    controls := env.formNode.map
      (fun n => n.elements.filter (fun el => el.isFormControlF)),
    config := spreadMerge env.cfgProps env.altProps }

/-- The `try / catch / finally` tail of `handleSubmit`
(lines 159-180): invoke the submit action on the snapshot; on failure,
rethrow when no `onError` is resolved, otherwise store and notify the
error tree `onError` returns (if any); `finally` always releases
`isSubmitting`. -/
def submitPhase (env : SubmitEnv) (act : SubmitAction) (currentData : Val)
    (s : FormState) (log : SubmitLog) : SubmitResult :=
  let ctx := mkSubmitCtx env
  let log1 : SubmitLog :=
    { log with submitCalls := log.submitCalls ++ [(currentData, ctx)] }
  match act currentData ctx with
  | Except.ok _ =>
      ⟨{ s with isSubmitting := false }, log1, Except.ok ()⟩
  | Except.error e =>
      match resolveOnError env with
      | none => ⟨{ s with isSubmitting := false }, log1, Except.error e⟩
      | some onErr =>
          let serverErrors := onErr e
          if truthy serverErrors then
            ⟨{ s with errorsTree := serverErrors, isSubmitting := false },
             { log1 with
                errorsSets := log1.errorsSets ++ [serverErrors],
                submitErrorCalls := log1.submitErrorCalls ++
                  extenderCalls env.extenders currentData serverErrors },
             Except.ok ()⟩
          else ⟨{ s with isSubmitting := false }, log1, Except.ok ()⟩

/-- The handler `handleSubmit` (`create-form-action.ts` lines 125-181), as one pure
function of the invocation environment, the presence of a triggering
event, and the store state.  Mirrors the source order: resolve the
submit action and return silently when none; `event?.preventDefault()`;
`isSubmitting.set(true)`; snapshot `currentData`; await validation then
warnings on the snapshot (a thrown validation or warning failure rejects
the handler right there — before the `try/finally` — leaving
`isSubmitting` true; the environment may edit the live data store during
this gap); store merged warnings when defined; set the whole touched
tree to `true`; when validation returned a tree, store it and — when some
leaf is truthy — notify extenders and stop with `isSubmitting` released;
otherwise run the guarded submit phase. -/
def handleSubmit (env : SubmitEnv) (hasEvent : Bool) (s : FormState) :
    SubmitResult :=
  match resolveOnSubmit env with
  | none => ⟨s, emptyLog, Except.ok ()⟩
  | some onSubmitAct =>
    let log0 : SubmitLog := { emptyLog with preventedDefault := hasEvent }
    let s1 := { s with isSubmitting := true }
    let currentData := s1.dataTree
    let s2 := { s1 with dataTree := env.asyncGapUpdate s1.dataTree }
    match executeValidation currentData (resolveValidate env) with
    | Except.error e => ⟨s2, log0, Except.error e⟩
    | Except.ok currentErrors =>
    match executeValidation currentData (resolveWarn env) with
    | Except.error e => ⟨s2, log0, Except.error e⟩
    | Except.ok currentWarnings =>
    let s3 := match currentWarnings with
      | some w =>
          { s2 with warningsTree := _merge (deepSet currentData Val.vundef) w }
      | none => s2
    let s4 := { s3 with touchedTree := deepSet s3.touchedTree (Val.vbool true) }
    match currentErrors with
    | some errs =>
        let s5 := { s4 with errorsTree := errs }
        let log1 := { log0 with errorsSets := log0.errorsSets ++ [errs] }
        if deepSome truthy errs then
          ⟨{ s5 with isSubmitting := false },
           { log1 with submitErrorCalls := log1.submitErrorCalls ++
               extenderCalls env.extenders currentData errs },
           Except.ok ()⟩
        else submitPhase env onSubmitAct currentData s5 log1
    | none => submitPhase env onSubmitAct currentData s4 log0

/-- The checkbox group resolved for a change target (lines 219-232):
the form's elements matching the `[name=...]` selector, kept when they
are form controls and — when the target carries an explicit index — their
parsed `data-felte-index` equals it, otherwise when their resolved path
equals the target's path. -/
def checkboxGroup (nodeEls : List Element) (target : Element) :
    List Element :=
  (nodeEls.filter (fun el => el.name == target.name)).filter
    (fun cb =>
      if !cb.isFormControlF then false
      else
        match target.felteIndex with
        | some i => cb.felteIndex == some i
        | none => target.path == cb.path)

/-- The handler `setCheckboxValues` (lines 218-249): resolve the checkbox group of
the target; an empty group writes nothing, a singleton group writes the
target's boolean checked state at the target's path, a larger group
writes the array of the values of its checked input members. -/
def setCheckboxValues (nodeEls : List Element) (target : Element)
    (d : Val) : Val :=
  let checkboxes := checkboxGroup nodeEls target
  if checkboxes.length = 0 then d
  else if checkboxes.length = 1 then
    _set d target.path (Val.vbool target.checked)
  else
    _set d target.path (Val.varr
      (((checkboxes.filter (fun el => el.isInputElementF)).filter
          (fun el => el.checked)).map (fun el => Val.vstr el.value)))

/-- The handler `setRadioValues` (lines 251-257): the first checked input element
sharing the target's name provides the written value; when none is
checked, `undefined` is written at the target's path. -/
def setRadioValues (nodeEls : List Element) (target : Element)
    (d : Val) : Val :=
  let radios := nodeEls.filter (fun el => el.name == target.name)
  let checkedRadio :=
    radios.find? (fun el => el.isInputElementF && el.checked)
  _set d target.path
    (match checkedRadio with
     | some r => Val.vstr r.value
     | none => Val.vundef)

/-- A form control inside a removed node, as `unsetTaggedForRemove`
observes it: the `data-felte-keep-on-remove` attribute value when the
attribute is present, and the path resolved by `getPathFromDataset`. -/
structure RControl where
  keepOnRemove : Option String
  rpath : List String
deriving DecidableEq, Repr

/-- Lines 322-326: a removed control keeps its entries when it carries
the keep-on-remove attribute with a value other than the string
`"false"`. -/
def shouldKeep (c : RControl) : Bool :=
  match c.keepOnRemove with
  | some v => v != "false"
  | none => false

/-- One loop body of `unsetTaggedForRemove` (lines 327-338): unset the
control's dataset path from the errors, warnings, touched and data
trees. -/
def unsetOne (c : RControl) (s : FormState) : FormState :=
  { s with
    errorsTree := _unset s.errorsTree c.rpath,
    warningsTree := _unset s.warningsTree c.rpath,
    touchedTree := _unset s.touchedTree c.rpath,
    dataTree := _unset s.dataTree c.rpath }

/-- The loop `unsetTaggedForRemove` (lines 320-340): iterate the removed controls
in reverse order, skipping kept controls and unsetting the paths of all
others from the four trees; the paths actually unset are also returned,
in processing order. -/
def unsetTaggedForRemove (controls : List RControl) (s : FormState) :
    FormState × List (List String) :=
  controls.reverse.foldl
    (fun acc c =>
      if shouldKeep c then acc
      else (unsetOne c acc.1, acc.2 ++ [c.rpath]))
    (s, [])

/-- A DOM node of a mutation record: whether it is an element, whether it
is itself a form control, and the form controls it contains
(`getFormControls`, in document order). -/
structure RNode where
  isElem : Bool
  isControl : Bool
  controls : List RControl
deriving DecidableEq, Repr

/-- Lines 346-351: an added node triggers a structural update when it is
an element that is a form control or contains at least one. -/
def addedTriggers (n : RNode) : Bool :=
  n.isElem && (n.isControl || n.controls.length != 0)

/-- One `MutationRecord`, restricted to the fields the callback reads. -/
structure MRecord where
  childList : Bool
  added : List RNode
  removed : List RNode
deriving DecidableEq, Repr

/-- Result of running the mutation callback: final store state, the
number of extender destroy-and-remount cycles, and the paths unset by
removal processing, in order. -/
structure MutResult where
  state : FormState
  remounts : Nat
  unsetLog : List (List String)

/-- Lines 365-372, one removed node: when it is an element containing at
least one form control, remount the extenders and run
`unsetTaggedForRemove` on its controls. -/
def processRemovedNode (n : RNode) (r : MutResult) : MutResult :=
  if n.isElem && n.controls.length != 0 then
    let res := unsetTaggedForRemove n.controls r.state
    { state := res.1, remounts := r.remounts + 1,
      unsetLog := r.unsetLog ++ res.2 }
  else r

/-- One iteration of the `mutationCallback` loop (lines 343-374) on one
record.  Non-`childList` records are skipped.  When the record has added
nodes but none of them is or contains a form control, the `continue`
statement skips the rest of the iteration — including the removed-nodes
block of the same record.  Otherwise: added nodes remount the extenders
and deep-default the freshly computed whole-tree defaults into the data
tree and their false-initialized image into the touched tree; removed
nodes are then processed one by one. -/
def processRecord (defaults : Val) (m : MRecord) (r : MutResult) :
    MutResult :=
  if !m.childList then r
  else if m.added.length != 0 && !(m.added.any addedTriggers) then r
  else
    let r1 :=
      if m.added.length != 0 then
        { r with
          remounts := r.remounts + 1,
          state := { r.state with
            dataTree := _defaultsDeep r.state.dataTree defaults,
            touchedTree := _defaultsDeep r.state.touchedTree
              (deepSet defaults (Val.vbool false)) } }
      else r
    if m.removed.length != 0 then
      m.removed.foldl (fun acc n => processRemovedNode n acc) r1
    else r1

/-- The callback `mutationCallback` (lines 342-375) over a batch of mutation records:
fold the per-record step over the batch.  `defaults` is the
`getFormDefaultValues` result for the whole current tree (the control
tree is static while the callback runs). -/
def mutationCallback (defaults : Val) (records : List MRecord)
    (s : FormState) : MutResult :=
  records.foldl (fun r m => processRecord defaults m r) ⟨s, 0, []⟩

/-- The state-only effect of the `unsetTaggedForRemove` loop on a single
tree: conditionally `_unset` each control's path, in list order. -/
def treeRun (controls : List RControl) (t : Val) : Val :=
  controls.foldl (fun t c => if shouldKeep c then t else _unset t c.rpath) t

/-- Did validation produce no truthy error (the condition under which
`handleSubmit` reaches the submit action)? -/
def noTruthyErrors : Option Val → Bool
  | none => true
  | some errs => !deepSome truthy errs

/-- A concrete checkbox control used to exercise the model. -/
def cbA : Element :=
  { name := "subscribe", isFormControlF := true, isInputElementF := true,
    checked := true, value := "news", felteIndex := none,
    path := ["subscribe"] }

/-- A second member of the same checkbox group, unchecked. -/
def cbB : Element :=
  { cbA with value := "offers", checked := false }

/-- A concrete form node. -/
def fnode : FormNode := ⟨[cbA]⟩

/-- A submit action that always succeeds. -/
def okAction : SubmitAction := fun _ _ => Except.ok ()

/-- A submit action that always throws. -/
def failAction : SubmitAction := fun _ _ => Except.error (Val.vstr "network")

/-- A validation result with a truthy error at `name`. -/
def errsTree : Val := Val.vobj [("name", Val.vstr "required")]

/-- A defined validation result whose only entry is falsy. -/
def falsyTree : Val := Val.vobj [("name", Val.vundef)]

/-- An error tree produced by the error-recovery function. -/
def recoveredTree : Val := Val.vobj [("name", Val.vstr "rejected upstream")]

/-- A concrete initial store state. -/
def st0 : FormState :=
  { dataTree := Val.vobj [("name", Val.vstr "")],
    errorsTree := Val.vundef, warningsTree := Val.vundef,
    touchedTree := Val.vobj [("name", Val.vbool false)],
    isSubmitting := false, isDirty := false }

/-- A concrete submit environment: a bound form, a succeeding configured
submit action, no validation, and a concurrent edit of `name` during the
asynchronous gap. -/
def baseEnv : SubmitEnv :=
  { formNode := some fnode, cfgOnSubmit := some okAction,
    altOnSubmit := none, cfgValidate := none, altValidate := none,
    cfgWarn := none, altWarn := none, cfgOnError := none,
    altOnError := none, cfgProps := [("method", Val.vstr "post")],
    altProps := [("method", Val.vstr "put")], defaultSubmit := okAction,
    extenders := [true, false, true],
    asyncGapUpdate := fun d => _set d ["name"] (Val.vstr "edited") }

/-- Variant of `baseEnv` with a validator that reports a truthy error. -/
def envWithErrors : SubmitEnv :=
  { baseEnv with cfgValidate := some (fun _ => Except.ok (some errsTree)) }

/-- Variant of `baseEnv` with a validator that throws. -/
def envThrowingValidate : SubmitEnv :=
  { baseEnv with
    cfgValidate := some (fun _ => Except.error (Val.vstr "crashed")) }

/-- Variant of `baseEnv` with a failing submit action and no error recovery. -/
def envFailSubmit : SubmitEnv :=
  { baseEnv with cfgOnSubmit := some failAction }

/-- Variant of `baseEnv` with a failing submit action and an error-recovery function
returning `recoveredTree`. -/
def envFailRecover : SubmitEnv :=
  { baseEnv with
    cfgOnSubmit := some failAction
    cfgOnError := some (fun _ => recoveredTree) }

/-- Variant of `baseEnv` with a validator whose reported tree has only falsy
entries. -/
def envFalsyErrors : SubmitEnv :=
  { baseEnv with cfgValidate := some (fun _ => Except.ok (some falsyTree)) }

/-- An environment with no form node bound and no configured submit
action: no submit action is resolvable. -/
def envNoSubmit : SubmitEnv :=
  { baseEnv with formNode := none, cfgOnSubmit := none }

/-- A removed control without the keep-on-remove marker. -/
def ctrlDrop : RControl := { keepOnRemove := none, rpath := ["quantity"] }

/-- A removed control carrying the keep-on-remove marker. -/
def ctrlKeep : RControl := { keepOnRemove := some "true", rpath := ["note"] }

/-- A store state exercised by the removal and growth scenarios. -/
def stRem : FormState :=
  { dataTree := Val.vobj [("quantity", Val.vnum 2), ("note", Val.vstr "g")],
    errorsTree := Val.vobj [("quantity", Val.vundef), ("note", Val.vundef)],
    warningsTree := Val.vobj [("quantity", Val.vundef),
      ("note", Val.vundef)],
    touchedTree := Val.vobj [("quantity", Val.vbool true),
      ("note", Val.vbool false)],
    isSubmitting := false, isDirty := true }

/-- An added node that is itself a form control. -/
def addNode : RNode := { isElem := true, isControl := true, controls := [] }

/-- A mutation record whose added nodes contain a control. -/
def addRec : MRecord :=
  { childList := true, added := [addNode], removed := [] }

/-- Whole-tree defaults recomputed after the growth mutation. -/
def defaults0 : Val :=
  Val.vobj [("quantity", Val.vnum 2), ("name", Val.vstr ""),
    ("subscribe", Val.vbool false)]


/-- Variant of `baseEnv` with a validator reporting a truthy error and a warning
function that throws. -/
def envErrsWarnThrows : SubmitEnv :=
  { baseEnv with
    cfgValidate := some (fun _ => Except.ok (some errsTree))
    cfgWarn := some (fun _ => Except.error (Val.vstr "warn crashed")) }

/-- Variant of `baseEnv` whose warning function throws (no validator
configured, so validation reports no errors at all). -/
def envWarnThrows : SubmitEnv :=
  { baseEnv with
    cfgWarn := some (fun _ => Except.error (Val.vstr "warn crashed")) }

/-- Variant of `baseEnv` whose validator reports a defined tree with only
falsy entries and whose warning function throws. -/
def envFalsyWarnThrows : SubmitEnv :=
  { baseEnv with
    cfgValidate := some (fun _ => Except.ok (some falsyTree))
    cfgWarn := some (fun _ => Except.error (Val.vstr "warn crashed")) }

theorem lookupKey_setKey_self (kvs : List (String × Val)) (k : String)
    (v : Val) : lookupKey (setKey kvs k v) k = some v := by
  induction kvs with
  | nil => simp [setKey, lookupKey]
  | cons kv rest ih =>
      obtain ⟨k0, w⟩ := kv
      by_cases h : k0 = k
      · simp [setKey, lookupKey, h]
      · simp [setKey, lookupKey, h, ih]

theorem lookupKey_setKey_ne (kvs : List (String × Val)) (k k' : String)
    (v : Val) (h : k' ≠ k) :
    lookupKey (setKey kvs k v) k' = lookupKey kvs k' := by
  induction kvs with
  | nil => simp [setKey, lookupKey, Ne.symm h]
  | cons kv rest ih =>
      obtain ⟨k0, w⟩ := kv
      by_cases h0 : k0 = k
      · subst h0
        simp [setKey, lookupKey, Ne.symm h]
      · simp [setKey, lookupKey, h0, ih]

theorem lookupKey_removeKey_self (kvs : List (String × Val)) (k : String) :
    lookupKey (removeKey kvs k) k = none := by
  induction kvs with
  | nil => simp [removeKey, lookupKey]
  | cons kv rest ih =>
      obtain ⟨k0, w⟩ := kv
      by_cases h : k0 = k
      · simp [removeKey, h, ih]
      · simp [removeKey, lookupKey, h, ih]

theorem lookupKey_removeKey_ne (kvs : List (String × Val)) (k k' : String)
    (h : k' ≠ k) : lookupKey (removeKey kvs k) k' = lookupKey kvs k' := by
  induction kvs with
  | nil => simp [removeKey]
  | cons kv rest ih =>
      obtain ⟨k0, w⟩ := kv
      by_cases h0 : k0 = k
      · subst h0
        simp [removeKey, lookupKey, Ne.symm h, ih]
      · simp [removeKey, lookupKey, h0, ih]

theorem get_set_same (p : List String) (d v : Val) :
    _get (_set d p v) p = v := by
  induction p generalizing d with
  | nil => simp [_set, _get]
  | cons k ks ih =>
      cases d with
      | vobj kvs => simp [_set, _get, lookupKey_setKey_self, ih]
      | vundef => simp [_set, _get, lookupKey, ih]
      | vbool b => simp [_set, _get, lookupKey, ih]
      | vstr s => simp [_set, _get, lookupKey, ih]
      | vnum n => simp [_set, _get, lookupKey, ih]
      | varr vs => simp [_set, _get, lookupKey, ih]

theorem lookupKey_setKey (kvs : List (String × Val)) (k : String) (v : Val)
    (k' : String) :
    lookupKey (setKey kvs k v) k' =
      if k' = k then some v else lookupKey kvs k' := by
  by_cases h : k' = k
  · subst h
    simp [lookupKey_setKey_self]
  · simp [h, lookupKey_setKey_ne kvs k k' v h]

theorem lookupKey_removeKey (kvs : List (String × Val)) (k k' : String) :
    lookupKey (removeKey kvs k) k' =
      if k' = k then none else lookupKey kvs k' := by
  by_cases h : k' = k
  · subst h
    simp [lookupKey_removeKey_self]
  · simp [h, lookupKey_removeKey_ne kvs k k' h]

theorem get_unset_self (p : List String) (hp : p ≠ []) (t : Val) :
    _get (_unset t p) p = Val.vundef := by
  induction p generalizing t with
  | nil => exact absurd rfl hp
  | cons k ks ih =>
      cases t with
      | vobj kvs =>
          cases ks with
          | nil => simp [_unset, _get, lookupKey_removeKey]
          | cons k2 ks2 =>
              cases hl : lookupKey kvs k with
              | some w =>
                  simp only [_unset, hl, _get, lookupKey_setKey, if_pos rfl]
                  exact ih (by simp) w
              | none => simp [_unset, hl, _get]
      | vundef => simp [_unset, _get]
      | vbool b => simp [_unset, _get]
      | vstr s => simp [_unset, _get]
      | vnum n => simp [_unset, _get]
      | varr vs => simp [_unset, _get]

theorem get_unset_vundef (p : List String) (t : Val) (q : List String)
    (h : _get t p = Val.vundef) : _get (_unset t q) p = Val.vundef := by
  induction p generalizing t q with
  | nil =>
      simp only [_get] at h
      subst h
      cases q with
      | nil => simp [_unset, _get]
      | cons k qs => cases qs <;> simp [_unset, _get]
  | cons k ps ih =>
      cases t with
      | vobj kvs =>
          cases q with
          | nil => simpa [_unset] using h
          | cons k' qs =>
              cases qs with
              | nil =>
                  by_cases hk : k = k'
                  · subst hk
                    simp [_unset, _get, lookupKey_removeKey]
                  · simp only [_unset, _get, lookupKey_removeKey, if_neg hk]
                    simpa [_get] using h
              | cons k2 qs2 =>
                  cases hl : lookupKey kvs k' with
                  | some w =>
                      by_cases hk : k = k'
                      · subst hk
                        simp only [_unset, hl, _get, lookupKey_setKey,
                          if_pos rfl]
                        simp only [_get, hl] at h
                        exact ih w (k2 :: qs2) h
                      · simp only [_unset, hl, _get, lookupKey_setKey,
                          if_neg hk]
                        simpa [_get] using h
                  | none => simpa [_unset, hl] using h
      | vundef => cases q with
          | nil => simpa [_unset] using h
          | cons k' qs => cases qs <;> simpa [_unset] using h
      | vbool b => cases q with
          | nil => simpa [_unset] using h
          | cons k' qs => cases qs <;> simpa [_unset] using h
      | vstr s => cases q with
          | nil => simpa [_unset] using h
          | cons k' qs => cases qs <;> simpa [_unset] using h
      | vnum n => cases q with
          | nil => simpa [_unset] using h
          | cons k' qs => cases qs <;> simpa [_unset] using h
      | varr vs => cases q with
          | nil => simpa [_unset] using h
          | cons k' qs => cases qs <;> simpa [_unset] using h

theorem get_unset_other (p q : List String) (t : Val)
    (hp : isPre p q = false) (hq : isPre q p = false) :
    _get (_unset t p) q = _get t q := by
  induction p generalizing q t with
  | nil => simp [isPre] at hp
  | cons k ps ih =>
      cases q with
      | nil => simp [isPre] at hq
      | cons k' qs =>
          by_cases hk : k = k'
          · subst hk
            simp only [isPre, decide_eq_true_eq, Bool.and_eq_false_iff] at hp hq
            have hp' : isPre ps qs = false := by
              rcases hp with h | h
              · simp at h
              · exact h
            have hq' : isPre qs ps = false := by
              rcases hq with h | h
              · simp at h
              · exact h
            cases t with
            | vobj kvs =>
                cases ps with
                | nil => simp [isPre] at hp'
                | cons k2 ps2 =>
                    cases qs with
                    | nil => simp [isPre] at hq'
                    | cons q2 qs2 =>
                        cases hl : lookupKey kvs k with
                        | some w =>
                            simp only [_unset, hl, _get, lookupKey_setKey,
                              if_pos rfl]
                            exact ih (q2 :: qs2) w hp' hq'
                        | none => simp [_unset, hl]
            | vundef => simp [_unset]
            | vbool b => simp [_unset]
            | vstr s => simp [_unset]
            | vnum n => simp [_unset]
            | varr vs => simp [_unset]
          · cases t with
            | vobj kvs =>
                cases ps with
                | nil =>
                    simp only [_unset, _get, lookupKey_removeKey,
                      if_neg (Ne.symm hk)]
                | cons k2 ps2 =>
                    cases hl : lookupKey kvs k with
                    | some w =>
                        simp only [_unset, hl, _get, lookupKey_setKey,
                          if_neg (Ne.symm hk)]
                    | none => simp [_unset, hl]
            | vundef => simp [_unset]
            | vbool b => simp [_unset]
            | vstr s => simp [_unset]
            | vnum n => simp [_unset]
            | varr vs => simp [_unset]

theorem get_cons_of_not_obj (t : Val) (h : isObjV t = false) (k : String)
    (ks : List String) : _get t (k :: ks) = Val.vundef := by
  cases t <;> simp_all [_get, isObjV]

theorem lookupKey_deepSetKVs (kvs : List (String × Val)) (b : Val)
    (k : String) :
    lookupKey (deepSetKVs kvs b) k =
      (lookupKey kvs k).map (fun v => deepSet v b) := by
  induction kvs with
  | nil => simp [deepSetKVs, lookupKey]
  | cons kv rest ih =>
      obtain ⟨k0, v0⟩ := kv
      by_cases h : k0 = k
      · simp [deepSetKVs, lookupKey, h]
      · simp [deepSetKVs, lookupKey, h, ih]

theorem get_deepSet (b : Val) (hb : isObjV b = false) (p : List String) :
    ∀ v : Val,
      _get (deepSet v b) p = Val.vundef ∨
      isObjV (_get (deepSet v b) p) = true ∨
      isArrV (_get (deepSet v b) p) = true ∨
      _get (deepSet v b) p = b := by
  induction p with
  | nil =>
      intro v
      cases v with
      | vobj kvs => right; left; simp [deepSet, _get, isObjV]
      | varr vs =>
          by_cases ha : allObj vs
          · right; right; left; simp [deepSet, _get, isArrV, ha]
          · right; right; right; simp [deepSet, _get, ha]
      | vundef => right; right; right; simp [deepSet, _get]
      | vbool x => right; right; right; simp [deepSet, _get]
      | vstr x => right; right; right; simp [deepSet, _get]
      | vnum x => right; right; right; simp [deepSet, _get]
  | cons k ks ih =>
      intro v
      cases v with
      | vobj kvs =>
          cases hl : lookupKey kvs k with
          | some w =>
              have : _get (deepSet (Val.vobj kvs) b) (k :: ks) =
                  _get (deepSet w b) ks := by
                simp [deepSet, _get, lookupKey_deepSetKVs, hl]
              rw [this]
              exact ih w
          | none =>
              left
              simp [deepSet, _get, lookupKey_deepSetKVs, hl]
      | varr vs =>
          by_cases ha : allObj vs
          · left
            simp [deepSet, ha, _get]
          · left
            simp only [deepSet, ha, if_neg]
            exact get_cons_of_not_obj b hb k ks
      | vundef => left; simp [deepSet]; exact get_cons_of_not_obj b hb k ks
      | vbool x => left; simp [deepSet]; exact get_cons_of_not_obj b hb k ks
      | vstr x => left; simp [deepSet]; exact get_cons_of_not_obj b hb k ks
      | vnum x => left; simp [deepSet]; exact get_cons_of_not_obj b hb k ks

theorem lookupKey_ddKVs (akvs : List (String × Val)) :
    ∀ (bkvs : List (String × Val)) (k : String),
      lookupKey (ddKVs akvs bkvs) k =
        match lookupKey akvs k with
        | some v =>
            some (match lookupKey bkvs k with
                  | some w => _defaultsDeep v w
                  | none => v)
        | none => lookupKey bkvs k := by
  induction akvs with
  | nil => intro bkvs k; simp [ddKVs, lookupKey]
  | cons kv rest ih =>
      intro bkvs k
      obtain ⟨k0, v0⟩ := kv
      by_cases h : k0 = k
      · subst h
        simp [ddKVs, lookupKey]
      · simp only [ddKVs, lookupKey, if_neg h, ih, lookupKey_removeKey,
          if_neg (fun hh : k = k0 => h hh.symm)]

theorem dd_keeps (p : List String) :
    ∀ (a b : Val), _get a p ≠ Val.vundef → isObjV (_get a p) = false →
      _get (_defaultsDeep a b) p = _get a p := by
  induction p with
  | nil =>
      intro a b h1 h2
      cases a with
      | vundef => exact absurd rfl h1
      | vobj akvs => simp [_get, isObjV] at h2
      | vbool x => cases b <;> simp [_defaultsDeep]
      | vstr x => cases b <;> simp [_defaultsDeep]
      | vnum x => cases b <;> simp [_defaultsDeep]
      | varr vs => cases b <;> simp [_defaultsDeep]
  | cons k ks ih =>
      intro a b h1 h2
      cases a with
      | vobj akvs =>
          cases b with
          | vobj bkvs =>
              cases hla : lookupKey akvs k with
              | none => simp [_get, hla] at h1
              | some v =>
                  simp only [_get, hla] at h1 h2
                  cases hlb : lookupKey bkvs k with
                  | some w =>
                      simp only [_defaultsDeep, _get, lookupKey_ddKVs, hla,
                        hlb]
                      exact ih v w h1 h2
                  | none =>
                      simp only [_defaultsDeep, _get, lookupKey_ddKVs, hla,
                        hlb]
          | vundef => simp [_defaultsDeep]
          | vbool x => simp [_defaultsDeep]
          | vstr x => simp [_defaultsDeep]
          | vnum x => simp [_defaultsDeep]
          | varr vs => simp [_defaultsDeep]
      | vundef => simp [_get] at h1
      | vbool x => simp [_get] at h1
      | vstr x => simp [_get] at h1
      | vnum x => simp [_get] at h1
      | varr vs => simp [_get] at h1

theorem dd_fills (p : List String) :
    ∀ (a b : Val), isObjV (_get (_defaultsDeep a b) p) = false →
      _get (_defaultsDeep a b) p ≠ _get a p →
      _get a p = Val.vundef ∧ _get (_defaultsDeep a b) p = _get b p := by
  induction p with
  | nil =>
      intro a b hobj hne
      cases a with
      | vundef => exact ⟨rfl, by simp [_defaultsDeep]⟩
      | vobj akvs =>
          cases b with
          | vobj bkvs => simp [_defaultsDeep, _get, isObjV] at hobj
          | vundef => simp [_defaultsDeep] at hne
          | vbool x => simp [_defaultsDeep] at hne
          | vstr x => simp [_defaultsDeep] at hne
          | vnum x => simp [_defaultsDeep] at hne
          | varr vs => simp [_defaultsDeep] at hne
      | vbool x => cases b <;> simp [_defaultsDeep] at hne
      | vstr x => cases b <;> simp [_defaultsDeep] at hne
      | vnum x => cases b <;> simp [_defaultsDeep] at hne
      | varr vs => cases b <;> simp [_defaultsDeep] at hne
  | cons k ks ih =>
      intro a b hobj hne
      cases a with
      | vundef => exact ⟨by simp [_get], by simp [_defaultsDeep]⟩
      | vobj akvs =>
          cases b with
          | vobj bkvs =>
              cases hla : lookupKey akvs k with
              | some v =>
                  cases hlb : lookupKey bkvs k with
                  | some w =>
                      simp only [_defaultsDeep, _get, lookupKey_ddKVs, hla,
                        hlb] at hobj hne ⊢
                      exact ih v w hobj hne
                  | none =>
                      simp only [_defaultsDeep, _get, lookupKey_ddKVs, hla,
                        hlb] at hne
                      exact absurd rfl hne
              | none =>
                  cases hlb : lookupKey bkvs k with
                  | some w =>
                      constructor
                      · simp [_get, hla]
                      · simp only [_defaultsDeep, _get, lookupKey_ddKVs, hla,
                          hlb]
                  | none =>
                      simp only [_defaultsDeep, _get, lookupKey_ddKVs, hla,
                        hlb] at hne
                      simp [_get, hla] at hne
          | vundef => simp [_defaultsDeep] at hne
          | vbool x => simp [_defaultsDeep] at hne
          | vstr x => simp [_defaultsDeep] at hne
          | vnum x => simp [_defaultsDeep] at hne
          | varr vs => simp [_defaultsDeep] at hne
      | vbool x => cases b <;> simp [_defaultsDeep] at hne
      | vstr x => cases b <;> simp [_defaultsDeep] at hne
      | vnum x => cases b <;> simp [_defaultsDeep] at hne
      | varr vs => cases b <;> simp [_defaultsDeep] at hne

theorem treeRun_cons (c : RControl) (L : List RControl) (t : Val) :
    treeRun (c :: L) t =
      treeRun L (if shouldKeep c then t else _unset t c.rpath) := rfl

theorem treeRun_noninter (L : List RControl) (t : Val) (q : List String)
    (h : ∀ c ∈ L, shouldKeep c = false →
      isPre c.rpath q = false ∧ isPre q c.rpath = false) :
    _get (treeRun L t) q = _get t q := by
  induction L generalizing t with
  | nil => rfl
  | cons c L ih =>
      rw [treeRun_cons]
      by_cases hc : shouldKeep c
      · rw [if_pos hc]
        exact ih t (fun c' hm hk => h c' (List.mem_cons_of_mem c hm) hk)
      · rw [if_neg hc]
        have hcq := h c (List.mem_cons_self c L) (by simpa using hc)
        rw [ih (_unset t c.rpath)
          (fun c' hm hk => h c' (List.mem_cons_of_mem c hm) hk)]
        exact get_unset_other c.rpath q t hcq.1 hcq.2

theorem treeRun_vundef (L : List RControl) (t : Val) (p : List String)
    (h : _get t p = Val.vundef) : _get (treeRun L t) p = Val.vundef := by
  induction L generalizing t with
  | nil => exact h
  | cons c L ih =>
      rw [treeRun_cons]
      by_cases hc : shouldKeep c
      · rw [if_pos hc]; exact ih t h
      · rw [if_neg hc]
        exact ih (_unset t c.rpath) (get_unset_vundef p t c.rpath h)

theorem treeRun_unsets (L : List RControl) (t : Val) (c0 : RControl)
    (hmem : c0 ∈ L) (hk : shouldKeep c0 = false) (hne : c0.rpath ≠ []) :
    _get (treeRun L t) c0.rpath = Val.vundef := by
  induction L generalizing t with
  | nil => cases hmem
  | cons c L ih =>
      rw [treeRun_cons]
      rcases List.mem_cons.mp hmem with he | hm
      · subst he
        rw [if_neg (by simp [hk])]
        exact treeRun_vundef L _ c0.rpath (get_unset_self c0.rpath hne t)
      · exact ih _ hm

theorem utfr_fold (L : List RControl) (s : FormState)
    (acc : List (List String)) :
    L.foldl (fun acc c => if shouldKeep c then acc
        else (unsetOne c acc.1, acc.2 ++ [c.rpath])) (s, acc) =
      ({ dataTree := treeRun L s.dataTree,
         errorsTree := treeRun L s.errorsTree,
         warningsTree := treeRun L s.warningsTree,
         touchedTree := treeRun L s.touchedTree,
         isSubmitting := s.isSubmitting, isDirty := s.isDirty },
       acc ++ (L.filter (fun c => !shouldKeep c)).map (fun c => c.rpath)) := by
  induction L generalizing s acc with
  | nil => simp [treeRun]
  | cons c L ih =>
      rw [List.foldl_cons]
      by_cases hc : shouldKeep c
      · rw [if_pos hc, ih s acc]
        simp [treeRun_cons, hc, List.filter_cons, hc]
      · rw [if_neg hc, ih (unsetOne c s) (acc ++ [c.rpath])]
        simp [treeRun_cons, hc, List.filter_cons, unsetOne]

theorem submitPhase_isSubmitting (env : SubmitEnv) (act : SubmitAction)
    (d : Val) (s : FormState) (log : SubmitLog) :
    (submitPhase env act d s log).state.isSubmitting = false := by
  cases hact : act d (mkSubmitCtx env) with
  | ok u => simp [submitPhase, hact]
  | error e =>
      cases hoe : resolveOnError env with
      | none => simp [submitPhase, hact, hoe]
      | some onErr =>
          by_cases ht : truthy (onErr e) = true
          · simp [submitPhase, hact, hoe, ht]
          · simp [submitPhase, hact, hoe, ht]

theorem submitPhase_submitCalls (env : SubmitEnv) (act : SubmitAction)
    (d : Val) (s : FormState) (log : SubmitLog) :
    (submitPhase env act d s log).log.submitCalls =
      log.submitCalls ++ [(d, mkSubmitCtx env)] := by
  cases hact : act d (mkSubmitCtx env) with
  | ok u => simp [submitPhase, hact]
  | error e =>
      cases hoe : resolveOnError env with
      | none => simp [submitPhase, hact, hoe]
      | some onErr =>
          by_cases ht : truthy (onErr e) = true
          · simp [submitPhase, hact, hoe, ht]
          · simp [submitPhase, hact, hoe, ht]

theorem submitPhase_dataTree (env : SubmitEnv) (act : SubmitAction)
    (d : Val) (s : FormState) (log : SubmitLog) :
    (submitPhase env act d s log).state.dataTree = s.dataTree := by
  cases hact : act d (mkSubmitCtx env) with
  | ok u => simp [submitPhase, hact]
  | error e =>
      cases hoe : resolveOnError env with
      | none => simp [submitPhase, hact, hoe]
      | some onErr =>
          by_cases ht : truthy (onErr e) = true
          · simp [submitPhase, hact, hoe, ht]
          · simp [submitPhase, hact, hoe, ht]

theorem submitPhase_errorsSets (env : SubmitEnv) (act : SubmitAction)
    (d : Val) (s : FormState) (log : SubmitLog) :
    ∃ tail, (submitPhase env act d s log).log.errorsSets =
      log.errorsSets ++ tail := by
  cases hact : act d (mkSubmitCtx env) with
  | ok u => exact ⟨[], by simp [submitPhase, hact]⟩
  | error e =>
      cases hoe : resolveOnError env with
      | none => exact ⟨[], by simp [submitPhase, hact, hoe]⟩
      | some onErr =>
          by_cases ht : truthy (onErr e) = true
          · exact ⟨[onErr e], by simp [submitPhase, hact, hoe, ht]⟩
          · exact ⟨[], by
              simp [submitPhase, hact, hoe, ht]⟩

/-- Claim **C1** (amended).  For every invocation of the submit handler in
which the validation function set, run on the data snapshot, produces a
truthy error at some path — provided the warning function set settles
without throwing — the error tree is stored in the errors store, every
current extender's `onSubmitError` hook is called with the snapshot and
that error tree, `isSubmitting` ends false, every leaf of the Touched
tree is set to `true`, the handler settles normally, and the submit
action is never invoked. -/
theorem c1_validation_error_short_circuit (env : SubmitEnv)
    (hasEvent : Bool) (s : FormState) (act : SubmitAction) (errs : Val)
    (cw : Option Val)
    (hres : resolveOnSubmit env = some act)
    (hv : executeValidation s.dataTree (resolveValidate env) =
      Except.ok (some errs))
    (htr : deepSome truthy errs = true)
    (hw : executeValidation s.dataTree (resolveWarn env) = Except.ok cw) :
    (handleSubmit env hasEvent s).state.errorsTree = errs ∧
    (handleSubmit env hasEvent s).log.submitErrorCalls =
      extenderCalls env.extenders s.dataTree errs ∧
    (handleSubmit env hasEvent s).state.isSubmitting = false ∧
    (handleSubmit env hasEvent s).log.submitCalls = [] ∧
    (handleSubmit env hasEvent s).outcome = Except.ok () ∧
    ∀ p : List String,
      _get (handleSubmit env hasEvent s).state.touchedTree p = Val.vundef ∨
      isObjV (_get (handleSubmit env hasEvent s).state.touchedTree p)
        = true ∨
      isArrV (_get (handleSubmit env hasEvent s).state.touchedTree p)
        = true ∨
      _get (handleSubmit env hasEvent s).state.touchedTree p =
        Val.vbool true := by
  cases cw with
  | none =>
      simp only [handleSubmit, hres, hv, hw, htr, if_true]
      refine ⟨?_, ?_, ?_, ?_, ?_, ?_⟩
      any_goals trivial
      intro p
      exact get_deepSet (Val.vbool true) rfl p s.touchedTree
  | some w =>
      simp only [handleSubmit, hres, hv, hw, htr, if_true]
      refine ⟨?_, ?_, ?_, ?_, ?_, ?_⟩
      any_goals trivial
      intro p
      exact get_deepSet (Val.vbool true) rfl p s.touchedTree

/-- Claim **C1**, counterexample to the claim as stated: with a validator
reporting a truthy error but a warning function that throws, the handler
rejects before storing the errors or releasing `isSubmitting`: the
errors store keeps its previous value and `isSubmitting` stays true. -/
theorem c1_counterexample :
    deepSome truthy errsTree = true ∧
    executeValidation st0.dataTree (resolveValidate envErrsWarnThrows) =
      Except.ok (some errsTree) ∧
    (resolveOnSubmit envErrsWarnThrows).isSome = true ∧
    (handleSubmit envErrsWarnThrows true st0).state.errorsTree ≠ errsTree ∧
    (handleSubmit envErrsWarnThrows true st0).state.isSubmitting = true ∧
    (handleSubmit envErrsWarnThrows true st0).log.submitErrorCalls = [] :=
  ⟨rfl, rfl, rfl, fun h => Val.noConfusion h, rfl, rfl⟩

/-- Claim **C1**, witness: the amended theorem applied to a concrete
environment whose validator reports `errsTree`. -/
theorem c1_witness :
    resolveOnSubmit envWithErrors = some okAction ∧
    executeValidation st0.dataTree (resolveValidate envWithErrors) =
      Except.ok (some errsTree) ∧
    deepSome truthy errsTree = true ∧
    executeValidation st0.dataTree (resolveWarn envWithErrors) =
      Except.ok none ∧
    (handleSubmit envWithErrors true st0).state.errorsTree = errsTree ∧
    (handleSubmit envWithErrors true st0).log.submitCalls = [] := by
  have h := c1_validation_error_short_circuit envWithErrors true st0
    okAction errsTree none rfl rfl rfl rfl
  exact ⟨rfl, rfl, rfl, rfl, h.1, h.2.2.2.1⟩

/-- Claim **C2** (amended).  For every execution of the submit handler that
resolves a submit action (and hence sets `isSubmitting` to true),
provided the validation and warning functions settle without throwing,
`isSubmitting` is false once the handler settles on every exit path:
validation short-circuit, successful submit, submit-action failure
recovered by `onError`, and submit-action failure propagated to the
caller. -/
theorem c2_isSubmitting_released (env : SubmitEnv) (hasEvent : Bool)
    (s : FormState) (act : SubmitAction) (ce cw : Option Val)
    (hres : resolveOnSubmit env = some act)
    (hv : executeValidation s.dataTree (resolveValidate env) =
      Except.ok ce)
    (hw : executeValidation s.dataTree (resolveWarn env) = Except.ok cw) :
    (handleSubmit env hasEvent s).state.isSubmitting = false := by
  cases ce with
  | none =>
      cases cw with
      | none =>
          simp only [handleSubmit, hres, hv, hw]
          exact submitPhase_isSubmitting env act s.dataTree _ _
      | some w =>
          simp only [handleSubmit, hres, hv, hw]
          exact submitPhase_isSubmitting env act s.dataTree _ _
  | some errs =>
      by_cases htr : deepSome truthy errs = true
      · cases cw with
        | none => simp only [handleSubmit, hres, hv, hw, htr, if_true]
        | some w => simp only [handleSubmit, hres, hv, hw, htr, if_true]
      · cases cw with
        | none =>
            simp only [handleSubmit, hres, hv, hw, htr, if_false,
              Bool.false_eq_true]
            exact submitPhase_isSubmitting env act s.dataTree _ _
        | some w =>
            simp only [handleSubmit, hres, hv, hw, htr, if_false,
              Bool.false_eq_true]
            exact submitPhase_isSubmitting env act s.dataTree _ _

/-- Claim **C2**, counterexample to the claim as stated: a throwing validator
makes the handler reject after `isSubmitting.set(true)` but before the
`try/finally`, so `isSubmitting` stays true.  `preventedDefault = true`
shows this execution had resolved a submit action and entered the
pipeline. -/
theorem c2_counterexample :
    (resolveOnSubmit envThrowingValidate).isSome = true ∧
    (handleSubmit envThrowingValidate true st0).log.preventedDefault =
      true ∧
    (handleSubmit envThrowingValidate true st0).outcome =
      Except.error (Val.vstr "crashed") ∧
    (handleSubmit envThrowingValidate true st0).state.isSubmitting =
      true :=
  ⟨rfl, rfl, rfl, rfl⟩

/-- Claim **C2**, witness: the amended theorem applied to a concrete
environment whose submit action fails and which has no recovery
function — the propagated-failure exit path. -/
theorem c2_witness :
    resolveOnSubmit envFailSubmit = some failAction ∧
    executeValidation st0.dataTree (resolveValidate envFailSubmit) =
      Except.ok none ∧
    executeValidation st0.dataTree (resolveWarn envFailSubmit) =
      Except.ok none ∧
    (handleSubmit envFailSubmit true st0).state.isSubmitting = false :=
  ⟨rfl, rfl, rfl,
    c2_isSubmitting_released envFailSubmit true st0 failAction none none
      rfl rfl rfl⟩

/-- Claim **C3**.  When validation reports no truthy error and the submit
action throws: with no error-recovery function resolved, the failure
propagates to the caller of the submit handler; with a recovery function
resolved that returns a truthy error tree, that tree is stored in the
errors store, every current extender's `onSubmitError` hook is notified
with the snapshot and that tree, and the handler settles normally. -/
theorem c3_submit_failure_handling (env : SubmitEnv) (hasEvent : Bool)
    (s : FormState) (act : SubmitAction) (ce cw : Option Val) (e : Val)
    (hres : resolveOnSubmit env = some act)
    (hv : executeValidation s.dataTree (resolveValidate env) =
      Except.ok ce)
    (hnt : noTruthyErrors ce = true)
    (hw : executeValidation s.dataTree (resolveWarn env) = Except.ok cw)
    (hact : act s.dataTree (mkSubmitCtx env) = Except.error e) :
    (resolveOnError env = none →
      (handleSubmit env hasEvent s).outcome = Except.error e) ∧
    (∀ onErr : Val → Val, resolveOnError env = some onErr →
      truthy (onErr e) = true →
      (handleSubmit env hasEvent s).state.errorsTree = onErr e ∧
      (handleSubmit env hasEvent s).log.submitErrorCalls =
        extenderCalls env.extenders s.dataTree (onErr e) ∧
      (handleSubmit env hasEvent s).outcome = Except.ok ()) := by
  have hred : ∀ s' log,
      (submitPhase env act s.dataTree s' log).log.submitErrorCalls =
          log.submitErrorCalls ++
            (match resolveOnError env with
             | none => []
             | some onErr =>
                if truthy (onErr e) then
                  extenderCalls env.extenders s.dataTree (onErr e)
                else []) ∧
      (submitPhase env act s.dataTree s' log).state.errorsTree =
          (match resolveOnError env with
           | none => s'.errorsTree
           | some onErr =>
              if truthy (onErr e) then onErr e else s'.errorsTree) ∧
      (submitPhase env act s.dataTree s' log).outcome =
          (match resolveOnError env with
           | none => Except.error e
           | some onErr => Except.ok ()) := by
    intro s' log
    cases hoe : resolveOnError env with
    | none => simp [submitPhase, hact, hoe]
    | some onErr =>
        by_cases ht : truthy (onErr e) = true
        · simp [submitPhase, hact, hoe, ht]
        · simp [submitPhase, hact, hoe, ht]
  constructor
  · intro hoe
    cases ce with
    | none =>
        cases cw with
        | none =>
            simp only [handleSubmit, hres, hv, hw]
            rw [(hred _ _).2.2, hoe]
        | some w =>
            simp only [handleSubmit, hres, hv, hw]
            rw [(hred _ _).2.2, hoe]
    | some errs =>
        have htr : deepSome truthy errs = false := by
          simpa [noTruthyErrors] using hnt
        cases cw with
        | none =>
            simp only [handleSubmit, hres, hv, hw, htr, if_false,
              Bool.false_eq_true]
            rw [(hred _ _).2.2, hoe]
        | some w =>
            simp only [handleSubmit, hres, hv, hw, htr, if_false,
              Bool.false_eq_true]
            rw [(hred _ _).2.2, hoe]
  · intro onErr hoe ht
    cases ce with
    | none =>
        cases cw with
        | none =>
            simp only [handleSubmit, hres, hv, hw]
            refine ⟨?_, ?_, ?_⟩
            · rw [(hred _ _).2.1, hoe]
              simp [ht]
            · rw [(hred _ _).1, hoe]
              simp [ht, emptyLog]
            · rw [(hred _ _).2.2, hoe]
        | some w =>
            simp only [handleSubmit, hres, hv, hw]
            refine ⟨?_, ?_, ?_⟩
            · rw [(hred _ _).2.1, hoe]
              simp [ht]
            · rw [(hred _ _).1, hoe]
              simp [ht, emptyLog]
            · rw [(hred _ _).2.2, hoe]
    | some errs =>
        have htr : deepSome truthy errs = false := by
          simpa [noTruthyErrors] using hnt
        cases cw with
        | none =>
            simp only [handleSubmit, hres, hv, hw, htr, if_false,
              Bool.false_eq_true]
            refine ⟨?_, ?_, ?_⟩
            · rw [(hred _ _).2.1, hoe]
              simp [ht]
            · rw [(hred _ _).1, hoe]
              simp [ht, emptyLog]
            · rw [(hred _ _).2.2, hoe]
        | some w =>
            simp only [handleSubmit, hres, hv, hw, htr, if_false,
              Bool.false_eq_true]
            refine ⟨?_, ?_, ?_⟩
            · rw [(hred _ _).2.1, hoe]
              simp [ht]
            · rw [(hred _ _).1, hoe]
              simp [ht, emptyLog]
            · rw [(hred _ _).2.2, hoe]

/-- Claim **C3**, witness: the theorem applied to a concrete environment with a
failing submit action and no recovery function — the failure
propagates. -/
theorem c3_witness :
    resolveOnSubmit envFailSubmit = some failAction ∧
    executeValidation st0.dataTree (resolveValidate envFailSubmit) =
      Except.ok none ∧
    noTruthyErrors none = true ∧
    executeValidation st0.dataTree (resolveWarn envFailSubmit) =
      Except.ok none ∧
    failAction st0.dataTree (mkSubmitCtx envFailSubmit) =
      Except.error (Val.vstr "network") ∧
    resolveOnError envFailSubmit = none ∧
    (handleSubmit envFailSubmit true st0).outcome =
      Except.error (Val.vstr "network") := by
  have h := c3_submit_failure_handling envFailSubmit true st0 failAction
    none none (Val.vstr "network") rfl rfl rfl rfl rfl
  exact ⟨rfl, rfl, rfl, rfl, rfl, rfl, h.1 rfl⟩

/-- Claim **C4** (amended).  For every invocation of the submit handler
where validation produces no truthy error — provided the warning
function set settles without throwing — the submit action is invoked
exactly once, its
data argument is the snapshot of the data store taken at the start of the
invocation — even though the live data store meanwhile received the
environment's concurrent edits (`asyncGapUpdate`) — and its context
argument carries the form node, the form's elements filtered to form
controls, and the configuration spread-merged with the per-handler
overrides. -/
theorem c4_submit_snapshot_once (env : SubmitEnv) (hasEvent : Bool)
    (s : FormState) (act : SubmitAction) (ce cw : Option Val)
    (hres : resolveOnSubmit env = some act)
    (hv : executeValidation s.dataTree (resolveValidate env) =
      Except.ok ce)
    (hnt : noTruthyErrors ce = true)
    (hw : executeValidation s.dataTree (resolveWarn env) = Except.ok cw) :
    (handleSubmit env hasEvent s).log.submitCalls =
      [(s.dataTree,
        { form := env.formNode,
          controls := env.formNode.map
            (fun n => n.elements.filter (fun el => el.isFormControlF)),
          config := spreadMerge env.cfgProps env.altProps })] ∧
    (handleSubmit env hasEvent s).state.dataTree =
      env.asyncGapUpdate s.dataTree := by
  have hctx : mkSubmitCtx env =
      { form := env.formNode,
        controls := env.formNode.map
          (fun n => n.elements.filter (fun el => el.isFormControlF)),
        config := spreadMerge env.cfgProps env.altProps } := rfl
  cases ce with
  | none =>
      cases cw with
      | none =>
          simp only [handleSubmit, hres, hv, hw]
          refine ⟨?_, ?_⟩
          · rw [submitPhase_submitCalls]
            simp [emptyLog, hctx]
          · rw [submitPhase_dataTree]
      | some w =>
          simp only [handleSubmit, hres, hv, hw]
          refine ⟨?_, ?_⟩
          · rw [submitPhase_submitCalls]
            simp [emptyLog, hctx]
          · rw [submitPhase_dataTree]
  | some errs =>
      have htr : deepSome truthy errs = false := by
        simpa [noTruthyErrors] using hnt
      cases cw with
      | none =>
          simp only [handleSubmit, hres, hv, hw, htr, if_false,
            Bool.false_eq_true]
          refine ⟨?_, ?_⟩
          · rw [submitPhase_submitCalls]
            simp [emptyLog, hctx]
          · rw [submitPhase_dataTree]
      | some w =>
          simp only [handleSubmit, hres, hv, hw, htr, if_false,
            Bool.false_eq_true]
          refine ⟨?_, ?_⟩
          · rw [submitPhase_submitCalls]
            simp [emptyLog, hctx]
          · rw [submitPhase_dataTree]

/-- Claim **C4**, witness: the theorem applied to the concrete base
environment; the live store ends edited while the submit action received
the unedited snapshot. -/
theorem c4_witness :
    resolveOnSubmit baseEnv = some okAction ∧
    executeValidation st0.dataTree (resolveValidate baseEnv) =
      Except.ok none ∧
    noTruthyErrors none = true ∧
    executeValidation st0.dataTree (resolveWarn baseEnv) =
      Except.ok none ∧
    (handleSubmit baseEnv true st0).log.submitCalls =
      [(st0.dataTree,
        { form := baseEnv.formNode,
          controls := baseEnv.formNode.map
            (fun n => n.elements.filter (fun el => el.isFormControlF)),
          config := spreadMerge baseEnv.cfgProps baseEnv.altProps })] ∧
    (handleSubmit baseEnv true st0).state.dataTree =
      baseEnv.asyncGapUpdate st0.dataTree := by
  have h := c4_submit_snapshot_once baseEnv true st0 okAction none none
    rfl rfl rfl rfl
  exact ⟨rfl, rfl, rfl, rfl, h.1, h.2⟩

/-- Claim **C8**.  For every invocation of the submit handler where no submit
action is resolvable — no per-handler override, no configured
`onSubmit`, and no bindable default handler because no form node is
bound — the handler returns without raising, without preventing the
triggering event's default action, and without modifying any store; in
particular `isSubmitting` is never set to true. -/
theorem c8_no_submit_action_noop (env : SubmitEnv) (hasEvent : Bool)
    (s : FormState)
    (h1 : env.altOnSubmit = none) (h2 : env.cfgOnSubmit = none)
    (h3 : env.formNode = none) :
    handleSubmit env hasEvent s =
      { state := s, log := emptyLog, outcome := Except.ok () } := by
  have hres : resolveOnSubmit env = none := by
    simp [resolveOnSubmit, h1, h2, h3]
  simp [handleSubmit, hres]

/-- Claim **C8**, witness: the theorem applied to the concrete environment with
no form node and no configured submit action. -/
theorem c8_witness :
    envNoSubmit.altOnSubmit = none ∧
    envNoSubmit.cfgOnSubmit = none ∧
    envNoSubmit.formNode = none ∧
    handleSubmit envNoSubmit true st0 =
      { state := st0, log := emptyLog, outcome := Except.ok () } :=
  ⟨rfl, rfl, rfl, c8_no_submit_action_noop envNoSubmit true st0 rfl rfl rfl⟩

theorem submitPhase_errorsSets_head (env : SubmitEnv)
    (act : SubmitAction) (d : Val) (s : FormState) (log : SubmitLog)
    (x : Val) (l : List Val) (hl : log.errorsSets = x :: l) :
    (submitPhase env act d s log).log.errorsSets.head? = some x := by
  obtain ⟨tail, ht⟩ := submitPhase_errorsSets env act d s log
  rw [ht, hl]
  simp

/-- Claim **C9** (amended).  Whenever the validation function set returns
a defined error tree — provided the warning function set settles without
throwing — that tree is passed to `errors.set` even when no entry in it
is truthy (it is the first `errors.set` of the invocation), and in that
all-falsy case the submission still proceeds to invoke the submit action
exactly once. -/
theorem c9_falsy_errors_still_set (env : SubmitEnv) (hasEvent : Bool)
    (s : FormState) (act : SubmitAction) (errs : Val) (cw : Option Val)
    (hres : resolveOnSubmit env = some act)
    (hv : executeValidation s.dataTree (resolveValidate env) =
      Except.ok (some errs))
    (hfalsy : deepSome truthy errs = false)
    (hw : executeValidation s.dataTree (resolveWarn env) = Except.ok cw) :
    (handleSubmit env hasEvent s).log.errorsSets.head? = some errs ∧
    (handleSubmit env hasEvent s).log.submitCalls.length = 1 := by
  cases cw with
  | none =>
      simp only [handleSubmit, hres, hv, hw, hfalsy, if_false,
        Bool.false_eq_true]
      constructor
      · exact submitPhase_errorsSets_head _ _ _ _ _ errs []
          (by simp [emptyLog])
      · rw [submitPhase_submitCalls]
        simp [emptyLog]
  | some w =>
      simp only [handleSubmit, hres, hv, hw, hfalsy, if_false,
        Bool.false_eq_true]
      constructor
      · exact submitPhase_errorsSets_head _ _ _ _ _ errs []
          (by simp [emptyLog])
      · rw [submitPhase_submitCalls]
        simp [emptyLog]

/-- Claim **C9**, witness: the theorem applied to a concrete environment whose
validator reports a defined tree with only falsy entries. -/
theorem c9_witness :
    resolveOnSubmit envFalsyErrors = some okAction ∧
    executeValidation st0.dataTree (resolveValidate envFalsyErrors) =
      Except.ok (some falsyTree) ∧
    deepSome truthy falsyTree = false ∧
    executeValidation st0.dataTree (resolveWarn envFalsyErrors) =
      Except.ok none ∧
    (handleSubmit envFalsyErrors true st0).log.errorsSets.head? =
      some falsyTree ∧
    (handleSubmit envFalsyErrors true st0).log.submitCalls.length = 1 := by
  have h := c9_falsy_errors_still_set envFalsyErrors true st0 okAction
    falsyTree none rfl rfl rfl rfl
  exact ⟨rfl, rfl, rfl, rfl, h.1, h.2⟩

/-- Claim **C5**.  On a checkbox change event: when the group resolved for the
target has exactly one member, the value written at the target's path in
the data store is the boolean checked state of the target; when the group
has two or more members, the value written is the array of the values of
the checked members (the DOM guarantees that a checked group member is an
input element, stated here as a hypothesis). -/
theorem c5_checkbox_group_values (nodeEls : List Element)
    (target : Element) (d : Val) :
    ((checkboxGroup nodeEls target).length = 1 →
      _get (setCheckboxValues nodeEls target d) target.path =
        Val.vbool target.checked) ∧
    (2 ≤ (checkboxGroup nodeEls target).length →
      (∀ c ∈ checkboxGroup nodeEls target, c.checked = true →
        c.isInputElementF = true) →
      _get (setCheckboxValues nodeEls target d) target.path =
        Val.varr (((checkboxGroup nodeEls target).filter
          (fun el => el.checked)).map (fun el => Val.vstr el.value))) := by
  constructor
  · intro h1
    simp only [setCheckboxValues, h1]
    norm_num
    exact get_set_same target.path d (Val.vbool target.checked)
  · intro h2 hall
    have h0 : ¬(checkboxGroup nodeEls target).length = 0 := by omega
    have h1 : ¬(checkboxGroup nodeEls target).length = 1 := by omega
    simp only [setCheckboxValues, h0, h1, if_false]
    have hfilter :
        ((checkboxGroup nodeEls target).filter
            (fun el => el.isInputElementF)).filter
          (fun el => el.checked) =
        (checkboxGroup nodeEls target).filter (fun el => el.checked) := by
      rw [List.filter_filter]
      refine List.filter_congr ?_
      intro x hx
      cases hc : x.checked with
      | true => simp [hall x hx hc, hc]
      | false => simp [hc]
    rw [hfilter]
    exact get_set_same target.path d _

/-- Claim **C5**, witness: a singleton group writes the target's boolean
checked state; a two-member group writes the array of checked values. -/
theorem c5_witness :
    (checkboxGroup [cbA] cbA).length = 1 ∧
    _get (setCheckboxValues [cbA] cbA st0.dataTree) cbA.path =
      Val.vbool true ∧
    2 ≤ (checkboxGroup [cbA, cbB] cbA).length ∧
    _get (setCheckboxValues [cbA, cbB] cbA st0.dataTree) cbA.path =
      Val.varr [Val.vstr "news"] := by
  refine ⟨rfl, ?_, by decide, ?_⟩
  · exact (c5_checkbox_group_values [cbA] cbA st0.dataTree).1 rfl
  · exact (c5_checkbox_group_values [cbA, cbB] cbA st0.dataTree).2
      (by decide) (by decide)

/-- Claim **C10**.  On a radio change event, if no element sharing the
target's name is a checked input, the value written at the target's path
in the data store is `undefined`, clearing any previously stored value at
that path. -/
theorem c10_radio_unchecked_undefined (nodeEls : List Element)
    (target : Element) (d : Val)
    (hnone : ∀ el ∈ nodeEls, el.name = target.name →
      ¬(el.isInputElementF = true ∧ el.checked = true)) :
    setRadioValues nodeEls target d = _set d target.path Val.vundef ∧
    _get (setRadioValues nodeEls target d) target.path = Val.vundef := by
  have hfind : (nodeEls.filter (fun el => el.name == target.name)).find?
      (fun el => el.isInputElementF && el.checked) = none := by
    rw [List.find?_eq_none]
    intro x hx
    obtain ⟨hmem, hname⟩ := List.mem_filter.mp hx
    have hname' : x.name = target.name := by
      simpa using hname
    intro hp
    rw [Bool.and_eq_true] at hp
    exact hnone x hmem hname' hp
  constructor
  · simp only [setRadioValues, hfind]
  · simp only [setRadioValues, hfind]
    exact get_set_same target.path d Val.vundef

/-- Claim **C10**, witness: a one-member radio list with its member unchecked
writes `undefined` at the target's path. -/
theorem c10_witness :
    setRadioValues [cbB] cbB st0.dataTree =
      _set st0.dataTree cbB.path Val.vundef ∧
    _get (setRadioValues [cbB] cbB st0.dataTree) cbB.path = Val.vundef :=
  ⟨(c10_radio_unchecked_undefined [cbB] cbB st0.dataTree (by decide)).1,
   (c10_radio_unchecked_undefined [cbB] cbB st0.dataTree (by decide)).2⟩

/-- Claim **C6**.  The controls of a removed node are processed in reverse
order, and exactly the controls not carrying a keep-on-remove marker (or
carrying it with value `"false"`) have their paths unset: assuming each
control's path is nonempty and a kept control's path does not overlap a
removed control's path (the DOM layout of distinct leaf controls), every
non-kept control's path reads back `undefined` in all four of the data,
touched, errors and warnings trees, and every kept control's entries in
all four trees are unchanged. -/
theorem c6_remove_unsets_paths (controls : List RControl) (s : FormState)
    (hne : ∀ c ∈ controls, c.rpath ≠ [])
    (hsep : ∀ c ∈ controls, ∀ c' ∈ controls, shouldKeep c = false →
      shouldKeep c' = true →
      isPre c.rpath c'.rpath = false ∧ isPre c'.rpath c.rpath = false) :
    (unsetTaggedForRemove controls s).2 =
      (controls.reverse.filter (fun c => !shouldKeep c)).map
        (fun c => c.rpath) ∧
    (∀ c ∈ controls, shouldKeep c = false →
      _get (unsetTaggedForRemove controls s).1.dataTree c.rpath =
        Val.vundef ∧
      _get (unsetTaggedForRemove controls s).1.touchedTree c.rpath =
        Val.vundef ∧
      _get (unsetTaggedForRemove controls s).1.errorsTree c.rpath =
        Val.vundef ∧
      _get (unsetTaggedForRemove controls s).1.warningsTree c.rpath =
        Val.vundef) ∧
    (∀ c' ∈ controls, shouldKeep c' = true →
      _get (unsetTaggedForRemove controls s).1.dataTree c'.rpath =
        _get s.dataTree c'.rpath ∧
      _get (unsetTaggedForRemove controls s).1.touchedTree c'.rpath =
        _get s.touchedTree c'.rpath ∧
      _get (unsetTaggedForRemove controls s).1.errorsTree c'.rpath =
        _get s.errorsTree c'.rpath ∧
      _get (unsetTaggedForRemove controls s).1.warningsTree c'.rpath =
        _get s.warningsTree c'.rpath) := by
  have hfold : unsetTaggedForRemove controls s =
      ({ dataTree := treeRun controls.reverse s.dataTree,
         errorsTree := treeRun controls.reverse s.errorsTree,
         warningsTree := treeRun controls.reverse s.warningsTree,
         touchedTree := treeRun controls.reverse s.touchedTree,
         isSubmitting := s.isSubmitting, isDirty := s.isDirty },
       [] ++ (controls.reverse.filter (fun c => !shouldKeep c)).map
         (fun c => c.rpath)) := utfr_fold controls.reverse s []
  refine ⟨?_, ?_, ?_⟩
  · rw [hfold]
    simp
  · intro c hc hkeep
    rw [hfold]
    have hm : c ∈ controls.reverse := List.mem_reverse.mpr hc
    exact ⟨treeRun_unsets _ _ _ hm hkeep (hne c hc),
      treeRun_unsets _ _ _ hm hkeep (hne c hc),
      treeRun_unsets _ _ _ hm hkeep (hne c hc),
      treeRun_unsets _ _ _ hm hkeep (hne c hc)⟩
  · intro c' hc' hkeep
    rw [hfold]
    have harg : ∀ c ∈ controls.reverse, shouldKeep c = false →
        isPre c.rpath c'.rpath = false ∧
        isPre c'.rpath c.rpath = false := by
      intro c hm hk
      exact hsep c (List.mem_reverse.mp hm) c' hc' hk hkeep
    exact ⟨treeRun_noninter _ _ _ harg, treeRun_noninter _ _ _ harg,
      treeRun_noninter _ _ _ harg, treeRun_noninter _ _ _ harg⟩

/-- Claim **C6**, witness: removing a marker-less control and a marked control
together unsets only the former's path; the marked control's entries are
intact. -/
theorem c6_witness :
    (unsetTaggedForRemove [ctrlDrop, ctrlKeep] stRem).2 =
      [["quantity"]] ∧
    _get (unsetTaggedForRemove [ctrlDrop, ctrlKeep] stRem).1.dataTree
      ["quantity"] = Val.vundef ∧
    _get (unsetTaggedForRemove [ctrlDrop, ctrlKeep] stRem).1.dataTree
      ["note"] = _get stRem.dataTree ["note"] := by
  have h := c6_remove_unsets_paths [ctrlDrop, ctrlKeep] stRem
    (by decide) (by decide)
  refine ⟨h.1, ?_, ?_⟩
  · exact (h.2.1 ctrlDrop (by decide) rfl).1
  · exact (h.2.2 ctrlKeep (by decide) rfl).1

/-- Claim **C7**.  When a mutation record adds at least one node that is or
contains a form control, the whole-tree defaults are deep-merged into the
data store — every path already holding a (non-object) value keeps its
current value, and any leaf that changed was an absent path that got
filled with the default at that path — and the false-initialized image of
the defaults is merged the same way into the touched store. -/
theorem c7_growth_defaults_merge (defaults : Val) (m : MRecord)
    (s : FormState)
    (hcl : m.childList = true)
    (hadd : m.added.any addedTriggers = true)
    (hrem : m.removed = []) :
    (mutationCallback defaults [m] s).state.dataTree =
      _defaultsDeep s.dataTree defaults ∧
    (mutationCallback defaults [m] s).state.touchedTree =
      _defaultsDeep s.touchedTree (deepSet defaults (Val.vbool false)) ∧
    (∀ p : List String, _get s.dataTree p ≠ Val.vundef →
      isObjV (_get s.dataTree p) = false →
      _get (mutationCallback defaults [m] s).state.dataTree p =
        _get s.dataTree p) ∧
    (∀ p : List String,
      isObjV (_get (mutationCallback defaults [m] s).state.dataTree p)
        = false →
      _get (mutationCallback defaults [m] s).state.dataTree p ≠
        _get s.dataTree p →
      _get s.dataTree p = Val.vundef ∧
      _get (mutationCallback defaults [m] s).state.dataTree p =
        _get defaults p) ∧
    (∀ p : List String, _get s.touchedTree p ≠ Val.vundef →
      isObjV (_get s.touchedTree p) = false →
      _get (mutationCallback defaults [m] s).state.touchedTree p =
        _get s.touchedTree p) ∧
    (∀ p : List String,
      isObjV (_get (mutationCallback defaults [m] s).state.touchedTree p)
        = false →
      _get (mutationCallback defaults [m] s).state.touchedTree p ≠
        _get s.touchedTree p →
      _get s.touchedTree p = Val.vundef ∧
      _get (mutationCallback defaults [m] s).state.touchedTree p =
        _get (deepSet defaults (Val.vbool false)) p) := by
  have hnonempty : m.added ≠ [] := by
    intro h
    rw [h] at hadd
    simp [List.any] at hadd
  have hlen : (m.added.length != 0) = true := by
    simp [hnonempty]
  have hred : mutationCallback defaults [m] s =
      { state := { s with
          dataTree := _defaultsDeep s.dataTree defaults,
          touchedTree := _defaultsDeep s.touchedTree
            (deepSet defaults (Val.vbool false)) },
        remounts := 1, unsetLog := [] } := by
    have hex : ¬(∀ x ∈ m.added, addedTriggers x = false) := by
      obtain ⟨x, hx, htr⟩ := List.any_eq_true.mp hadd
      intro hall
      rw [hall x hx] at htr
      cases htr
    simp [mutationCallback, processRecord, hcl, hadd, hrem, hlen,
      hnonempty, hex]
  rw [hred]
  refine ⟨rfl, rfl, ?_, ?_, ?_, ?_⟩
  · intro p h1 h2
    exact dd_keeps p s.dataTree defaults h1 h2
  · intro p h1 h2
    exact dd_fills p s.dataTree defaults h1 h2
  · intro p h1 h2
    exact dd_keeps p s.touchedTree _ h1 h2
  · intro p h1 h2
    exact dd_fills p s.touchedTree _ h1 h2

/-- Claim **C7**, witness: the theorem applied to a concrete growth record;
the existing `quantity` value survives, the absent `name` and
`subscribe` paths are filled from the defaults, and touched gains a
false-initialized entry. -/
theorem c7_witness :
    addRec.childList = true ∧
    addRec.added.any addedTriggers = true ∧
    addRec.removed = [] ∧
    (mutationCallback defaults0 [addRec] stRem).state.dataTree =
      _defaultsDeep stRem.dataTree defaults0 ∧
    _get (mutationCallback defaults0 [addRec] stRem).state.dataTree
      ["quantity"] = _get stRem.dataTree ["quantity"] ∧
    ((_get stRem.dataTree ["name"] = Val.vundef) ∧
      _get (mutationCallback defaults0 [addRec] stRem).state.dataTree
        ["name"] = _get defaults0 ["name"]) ∧
    _get (mutationCallback defaults0 [addRec] stRem).state.touchedTree
      ["name"] = Val.vbool false := by
  have h := c7_growth_defaults_merge defaults0 addRec stRem rfl rfl rfl
  refine ⟨rfl, rfl, rfl, h.1, ?_, ?_, ?_⟩
  · exact h.2.2.1 ["quantity"] (fun hh => Val.noConfusion hh) rfl
  · exact h.2.2.2.1 ["name"] rfl (fun hh => Val.noConfusion hh)
  · have := h.2.2.2.2.2 ["name"] rfl (fun hh => Val.noConfusion hh)
    exact this.2

/-- Claim **C4**, counterexample to the claim as stated: with no
validator configured (so validation produces no truthy error) but a
throwing warning function, the handler rejects at the warning await —
before the `try` block — and the submit action is invoked zero times,
not exactly once. -/
theorem c4_counterexample :
    (resolveOnSubmit envWarnThrows).isSome = true ∧
    executeValidation st0.dataTree (resolveValidate envWarnThrows) =
      Except.ok none ∧
    (handleSubmit envWarnThrows true st0).log.preventedDefault = true ∧
    (handleSubmit envWarnThrows true st0).outcome =
      Except.error (Val.vstr "warn crashed") ∧
    (handleSubmit envWarnThrows true st0).log.submitCalls = [] :=
  ⟨rfl, rfl, rfl, rfl, rfl⟩

/-- Claim **C9**, counterexample to the claim as stated: with a validator
returning a defined all-falsy tree but a throwing warning function, the
handler rejects before `errors.set` — the tree is never written to the
errors store — and the submission does not proceed to the submit
action. -/
theorem c9_counterexample :
    executeValidation st0.dataTree (resolveValidate envFalsyWarnThrows) =
      Except.ok (some falsyTree) ∧
    deepSome truthy falsyTree = false ∧
    (resolveOnSubmit envFalsyWarnThrows).isSome = true ∧
    (handleSubmit envFalsyWarnThrows true st0).outcome =
      Except.error (Val.vstr "warn crashed") ∧
    (handleSubmit envFalsyWarnThrows true st0).log.errorsSets = [] ∧
    (handleSubmit envFalsyWarnThrows true st0).log.submitCalls = [] :=
  ⟨rfl, rfl, rfl, rfl, rfl, rfl⟩
